import Mathlib

/-!
Verification development for the beam-search decoder in `src/beam_search.py`
of the RLSeq2Seq repository.

Embedding conventions:
* Token ids are `Nat` (Python ints; all ids produced by the vocabulary and the
  model are non-negative).
* Log probabilities are `WithBot ℚ`: `⊥` stands for the float `-inf` assigned
  by the trigram guard, and a finite value is an exact rational standing for
  the float.  `WithBot` addition satisfies `⊥ + x = x + ⊥ = ⊥`, matching IEEE
  `-inf + finite = -inf` (no `+inf` is ever produced by the code).
* The decoder state (`LSTMStateTuple`) and the per-step auxiliary vectors
  (attention distributions, coverage, decoder outputs, encoder masks) are
  opaque to the search; they are embedded as type parameters `σ` (states) and
  `V` (vectors).
* The external collaborators (`model.run_encoder`, `model.decode_onestep`, and
  the `FLAGS.ac_training` value-estimator blending of lines 146-159, which
  only replaces the candidate ids/log-probs returned by `decode_onestep` with
  ones computed from the external DQN's estimates) are embedded as an oracle
  function `decode : DecodeIn σ V → StepOut σ V`; the search places no
  constraint on its output.  The constant `enc_states` and `batch` arguments
  are folded into the oracle's closure.
-/

/-- Log probability: an exact rational, or `⊥` for `-inf`. -/
abbrev LogProb := WithBot ℚ

/-- The `FLAGS` consulted by `beam_search.py`, gathered into a record.
`beam_size` is a `Nat`: the flag is an int, and a non-positive value behaves
exactly like `0` everywhere in this file (`range` is empty, `len(results) <
beam_size` is false). -/
structure Config where
  beam_size : Nat
  max_dec_steps : Nat
  min_dec_steps : Nat
  avoid_trigrams : Bool
  intradecoder : Bool
  use_temporal_attention : Bool
deriving DecidableEq

/-- The vocabulary interface: its size and the fixed ids
`word2id(START_DECODING)`, `word2id(STOP_DECODING)`, `word2id(UNKNOWN_TOKEN)`. -/
structure Vocab where
  size : Nat
  start_id : Nat
  stop_id : Nat
  unk_id : Nat
deriving DecidableEq

/-- `Hypothesis` from `beam_search.py` lines 28-49: one partial output
sequence and its bookkeeping.  `σ` is the decoder-state type, `V` the opaque
vector type (numpy arrays). -/
structure Hypothesis (σ V : Type) where
  tokens : List Nat
  log_probs : List LogProb
  state : σ
  decoder_output : List V
  encoder_mask : List V
  attn_dists : List V
  p_gens : List ℚ
  coverage : V
deriving DecidableEq

/-- `_find_ngrams(input_list, 3)` (line 75-76): the code only ever calls
`_find_ngrams` with `n = 3`, where `zip(*[l[i:] for i in range(3)])` yields the
contiguous 3-token windows, truncated at the shortest shifted list. -/
def find_ngrams3 : List Nat → List (Nat × Nat × Nat)
  | a :: b :: c :: rest => (a, b, c) :: find_ngrams3 (b :: c :: rest)
  | _ => []

/-- `_has_trigram` (lines 78-81): build the trigram list, count occurrences
(`Counter`), and return `True` iff not every trigram occurs exactly once. -/
def has_trigram (tokens : List Nat) : Bool :=
  let tri_grams := find_ngrams3 tokens
  !(tri_grams.all fun g => tri_grams.count g == 1)

/-- `Hypothesis.extend` (lines 51-73): return a new hypothesis extended by one
token.  If `FLAGS.avoid_trigrams` is set and the extended token sequence has a
duplicated trigram, the supplied `log_prob` is overridden with `-inf` (`⊥`).
`decoder_output`/`encoder_mask` are `Option`s: the Python call sites pass
`None` when the corresponding feedback flag is off, and the code then stores
an empty history. -/
def Hypothesis.extend (avoid_trigrams : Bool) (h : Hypothesis σ V) (token : Nat)
    (log_prob : LogProb) (state : σ) (decoder_output : Option V)
    (encoder_mask : Option V) (attn_dist : V) (p_gen : ℚ) (coverage : V) :
    Hypothesis σ V :=
  let log_prob := if avoid_trigrams && has_trigram (h.tokens ++ [token]) then ⊥ else log_prob
  { tokens := h.tokens ++ [token]
    log_probs := h.log_probs ++ [log_prob]
    state := state
    decoder_output := match decoder_output with
      | some d => h.decoder_output ++ [d]
      | none => []
    encoder_mask := match encoder_mask with
      | some e => h.encoder_mask ++ [e]
      | none => []
    attn_dists := h.attn_dists ++ [attn_dist]
    p_gens := h.p_gens ++ [p_gen]
    coverage := coverage }

/-- `latest_token` (lines 83-85): `self.tokens[-1]`.  Python raises on an
empty list; every hypothesis the search builds has at least one token, and the
embedding totalizes with default `0`. -/
def Hypothesis.latest_token (h : Hypothesis σ V) : Nat :=
  h.tokens.getLastD 0

/-- `log_prob` (lines 87-90): sum of the per-token log probabilities. -/
def Hypothesis.log_prob (h : Hypothesis σ V) : LogProb :=
  h.log_probs.sum

/-- `avg_log_prob` (lines 92-95): `self.log_prob / len(self.tokens)` — the
exact division, with no epsilon in the denominator.  (Python raises
`ZeroDivisionError` on an empty `tokens`; the embedding's `q / 0 = 0` case is
unreachable for hypotheses built by the search.) -/
def Hypothesis.avg_log_prob (h : Hypothesis σ V) : LogProb :=
  h.log_prob.map fun q => q / (h.tokens.length : ℚ)

/-- The sort key relation of `sort_hyps` (lines 210-212): descending
`avg_log_prob`. -/
def hypGE (a b : Hypothesis σ V) : Prop :=
  b.avg_log_prob ≤ a.avg_log_prob

instance : DecidableRel (@hypGE σ V) :=
  fun a b => inferInstanceAs (Decidable (b.avg_log_prob ≤ a.avg_log_prob))

instance : IsTotal (Hypothesis σ V) hypGE :=
  ⟨fun a b => le_total b.avg_log_prob a.avg_log_prob⟩

instance : IsTrans (Hypothesis σ V) hypGE :=
  ⟨fun _ _ _ hab hbc => le_trans hbc hab⟩

/-- `sort_hyps` (lines 210-212): sort by descending average log probability.
Python's `sorted` and `List.insertionSort` are both stable sorts, so both
return the same sorted permutation. -/
def sort_hyps (hyps : List (Hypothesis σ V)) : List (Hypothesis σ V) :=
  List.insertionSort hypGE hyps

/-- The per-hypothesis inputs gathered for `model.decode_onestep`
(lines 130-144).  `prev_decoder_outputs` / `prev_encoder_es` are passed empty
when the corresponding flag is off (`tf.stack([], axis=0)`); the numpy
`swapaxes(0, 1)` batching transpose does not change the number of
per-hypothesis entries and is not modelled. -/
structure DecodeIn (σ V : Type) where
  latest_tokens : List Nat
  dec_init_states : List σ
  prev_coverage : List V
  prev_decoder_outputs : List (List V)
  prev_encoder_es : List (List V)

/-- The tuple returned by `model.decode_onestep` (line 137), possibly
overwritten by the `FLAGS.ac_training` value-estimator blending (lines
146-159); per the model contract each outer list has one entry per hypothesis
and each `topk` row has `2 * beam_size` entries. -/
structure StepOut (σ V : Type) where
  topk_ids : List (List Nat)
  topk_log_probs : List (List LogProb)
  new_states : List σ
  attn_dists : List V
  p_gens : List ℚ
  new_coverage : List V
  decoder_output : List V
  encoder_e : List V

/-- Lines 130-135: build the batched per-hypothesis inputs of the model call.
Line 131 replaces any out-of-vocabulary id (`t ∉ range(vocab.size())`) by the
unknown-token id. -/
def decodeInputs (cfg : Config) (vocab : Vocab) (hyps : List (Hypothesis σ V)) :
    DecodeIn σ V :=
  let latest_tokens := hyps.map fun h => h.latest_token
  let latest_tokens := latest_tokens.map fun t => if t < vocab.size then t else vocab.unk_id
  { latest_tokens := latest_tokens
    dec_init_states := hyps.map fun h => h.state
    prev_coverage := hyps.map fun h => h.coverage
    prev_decoder_outputs := if cfg.intradecoder then hyps.map fun h => h.decoder_output else []
    prev_encoder_es := if cfg.use_temporal_attention then hyps.map fun h => h.encoder_mask else [] }

/-- Lines 161-182: extend each of the first `num_orig_hyps` hypotheses with
each of the `2 * beam_size` candidate tokens.  `num_orig_hyps` is `1` on step
0 (the beam is uniform) and `len(hyps)` afterwards.  Out-of-range numpy/list
indexing (unreachable when the model honours its output shapes and the beam is
non-empty) is totalized with `getD`. -/
instance [Inhabited σ] [Inhabited V] : Inhabited (Hypothesis σ V) :=
  ⟨{ tokens := [], log_probs := [], state := default, decoder_output := []
     encoder_mask := [], attn_dists := [], p_gens := [], coverage := default }⟩

def extendAll [Inhabited σ] [Inhabited V] (cfg : Config) (steps : Nat)
    (hyps : List (Hypothesis σ V)) (res : StepOut σ V) : List (Hypothesis σ V) :=
  let num_orig_hyps := if steps = 0 then 1 else hyps.length
  (List.range num_orig_hyps).flatMap fun i =>
    let h := hyps.getD i default
    let new_state := res.new_states.getD i default
    let attn_dist := res.attn_dists.getD i default
    let p_gen := res.p_gens.getD i 0
    let new_coverage_i := res.new_coverage.getD i default
    let decoder_output_i := if cfg.intradecoder then some (res.decoder_output.getD i default) else none
    let encoder_mask_i := if cfg.use_temporal_attention then some (res.encoder_e.getD i default) else none
    (List.range (cfg.beam_size * 2)).map fun j =>
      h.extend cfg.avoid_trigrams ((res.topk_ids.getD i []).getD j 0)
        ((res.topk_log_probs.getD i []).getD j 0) new_state decoder_output_i
        encoder_mask_i attn_dist p_gen new_coverage_i

/-- Lines 184-195: the selection scan.  Iterate over the (already sorted)
candidates: a candidate whose latest token is the stop token is appended to
the (shared, accumulated) `results` when `steps >= min_dec_steps` and dropped
otherwise; any other candidate is appended to the next beam `hyps`.  After
each candidate, stop as soon as `len(hyps) == beam_size` or
`len(results) == beam_size`.  Returns `(hyps, results)`. -/
def filterScan (cfg : Config) (vocab : Vocab) (steps : Nat) :
    List (Hypothesis σ V) → List (Hypothesis σ V) → List (Hypothesis σ V) →
    List (Hypothesis σ V) × List (Hypothesis σ V)
  | [], hyps, results => (hyps, results)
  | h :: rest, hyps, results =>
    let next :=
      if h.latest_token = vocab.stop_id then
        if cfg.min_dec_steps ≤ steps then (hyps, results ++ [h]) else (hyps, results)
      else (hyps ++ [h], results)
    if next.1.length = cfg.beam_size ∨ next.2.length = cfg.beam_size then next
    else filterScan cfg vocab steps rest next.1 next.2

/-- One iteration of the `while` loop (lines 130-195): one model call, the
extension of the beam into candidates, and the selection scan (which starts
from a fresh `hyps = []` and the accumulated `results`). -/
def runStep [Inhabited σ] [Inhabited V] (cfg : Config) (vocab : Vocab)
    (decode : DecodeIn σ V → StepOut σ V) (steps : Nat)
    (hyps results : List (Hypothesis σ V)) :
    List (Hypothesis σ V) × List (Hypothesis σ V) :=
  let res := decode (decodeInputs cfg vocab hyps)
  let all_hyps := extendAll cfg steps hyps res
  filterScan cfg vocab steps (sort_hyps all_hyps) [] results

/-- Lines 128-197: `steps = 0; while steps < FLAGS.max_dec_steps and
len(results) < FLAGS.beam_size: ... ; steps += 1`.  The loop is embedded
structurally with `fuel = max_dec_steps - steps`, so the guard
`steps < max_dec_steps` is exactly `fuel ≠ 0`; the explicit `steps` counter is
kept and returned alongside the final `hyps` and `results`. -/
def beamLoop [Inhabited σ] [Inhabited V] (cfg : Config) (vocab : Vocab)
    (decode : DecodeIn σ V → StepOut σ V) :
    Nat → Nat → List (Hypothesis σ V) → List (Hypothesis σ V) →
    Nat × List (Hypothesis σ V) × List (Hypothesis σ V)
  | 0, steps, hyps, results => (steps, hyps, results)
  | fuel + 1, steps, hyps, results =>
    if results.length < cfg.beam_size then
      let next := runStep cfg vocab decode steps hyps results
      beamLoop cfg vocab decode fuel (steps + 1) next.1 next.2
    else (steps, hyps, results)

/-- Lines 117-125: the initial beam: `beam_size` copies of the start
hypothesis (`tokens = [START]`, `log_probs = [0.0]`, the decoder state from
`run_encoder`, one zero decoder-output vector, one zero encoder-mask vector,
empty attention/p_gen histories, a zero coverage vector). -/
def initHyps (cfg : Config) (vocab : Vocab) (dec_in_state : σ)
    (zero_dec zero_enc : V) : List (Hypothesis σ V) :=
  (List.range cfg.beam_size).map fun _ =>
    { tokens := [vocab.start_id]
      log_probs := [(0 : LogProb)]
      state := dec_in_state
      decoder_output := [zero_dec]
      encoder_mask := [zero_enc]
      attn_dists := []
      p_gens := []
      coverage := zero_enc }

/-- Lines 199-205: the pool the final answer is chosen from: `results`, or, if
no hypothesis ever completed, the current (possibly unfinished) beam. -/
def finalPool [Inhabited σ] [Inhabited V] (cfg : Config) (vocab : Vocab)
    (decode : DecodeIn σ V → StepOut σ V) (dec_in_state : σ)
    (zero_dec zero_enc : V) : List (Hypothesis σ V) :=
  let hyps := initHyps cfg vocab dec_in_state zero_dec zero_enc
  let fin := beamLoop cfg vocab decode cfg.max_dec_steps 0 hyps []
  if fin.2.2.length = 0 then fin.2.1 else fin.2.2

/-- `run_beam_search` (lines 98-208): run the loop, fall back to the beam when
`results` is empty, sort by descending average log probability and return the
first element.  Python's `hyps_sorted[0]` raises `IndexError` on an empty
pool; the embedding returns `none` there. -/
def run_beam_search [Inhabited σ] [Inhabited V] (cfg : Config) (vocab : Vocab)
    (decode : DecodeIn σ V → StepOut σ V) (dec_in_state : σ)
    (zero_dec zero_enc : V) : Option (Hypothesis σ V) :=
  (sort_hyps (finalPool cfg vocab decode dec_in_state zero_dec zero_enc)).head?

/-- A small concrete vocabulary for the concrete runs below: size 3,
start id 1, stop id 2, unknown id 0. -/
def vocabT : Vocab := { size := 3, start_id := 1, stop_id := 2, unk_id := 0 }

def cfgStop : Config :=
  { beam_size := 1, max_dec_steps := 1, min_dec_steps := 1,
    avoid_trigrams := false, intradecoder := false, use_temporal_attention := false }

def decodeStop : DecodeIn Unit Unit → StepOut Unit Unit := fun _ =>
  { topk_ids := [[2, 2]], topk_log_probs := [[(0 : LogProb), (0 : LogProb)]],
    new_states := [()], attn_dists := [()], p_gens := [0], new_coverage := [()],
    decoder_output := [()], encoder_e := [()] }

def cfgMinMax : Config :=
  { beam_size := 1, max_dec_steps := 1, min_dec_steps := 3,
    avoid_trigrams := false, intradecoder := false, use_temporal_attention := false }

def decodeTok : DecodeIn Unit Unit → StepOut Unit Unit := fun _ =>
  { topk_ids := [[1, 1]], topk_log_probs := [[(-1 : ℚ), (-2 : ℚ)]],
    new_states := [()], attn_dists := [()], p_gens := [0], new_coverage := [()],
    decoder_output := [()], encoder_e := [()] }

/-- The token-length invariant carried through the loop: beam hypotheses at
counter value `s` have exactly `s + 1` tokens; results have between `1` and
`s + 1` tokens; on counter value `0` the beam is the full initial beam. -/
def LenInv (cfg : Config) (s : Nat) (hyps results : List (Hypothesis σ V)) : Prop :=
  (∀ h ∈ hyps, h.tokens.length = s + 1) ∧
  (∀ h ∈ results, 1 ≤ h.tokens.length ∧ h.tokens.length ≤ s + 1) ∧
  (s = 0 → hyps.length = cfg.beam_size)

/-- The winning hypothesis of the concrete `cfgMinMax`/`decodeTok` run: the
start token followed by token `1` with log probability `-1`. -/
def hBest : Hypothesis Unit Unit :=
  { tokens := [1, 1]
    log_probs := [(0 : LogProb), ((-1 : ℚ) : LogProb)]
    state := ()
    decoder_output := []
    encoder_mask := []
    attn_dists := [()]
    p_gens := [0]
    coverage := () }

/-- A configuration with `beam_size = 0` (the flag is never validated). -/
def cfgZero : Config :=
  { beam_size := 0, max_dec_steps := 5, min_dec_steps := 0,
    avoid_trigrams := false, intradecoder := false, use_temporal_attention := false }

/-- A configuration with `beam_size = 2`. -/
def cfgTwo : Config :=
  { beam_size := 2, max_dec_steps := 5, min_dec_steps := 0,
    avoid_trigrams := false, intradecoder := false, use_temporal_attention := false }

/-- The contiguous 3-token windows of a list, indexed form: window `i` is
`(l[i], l[i+1], l[i+2])` for `i < l.length - 2`.  This is the spec's
"all contiguous 3-token windows", stated independently of the code's
`zip`-based extraction. -/
def windows3 (l : List Nat) : List (Nat × Nat × Nat) :=
  (List.range (l.length - 2)).map fun i => (l.getD i 0, l.getD (i + 1) 0, l.getD (i + 2) 0)

/-- Modelled from the spec: §7 requires all divisions (in particular the
division by the sequence length in `avg_log_prob`) to be guarded "using small
epsilon additions".  The code's `avg_log_prob` (lines 92-95) has no such
epsilon; this is the ε-guarded variant the spec describes, for comparison. -/
def avg_log_prob_eps (eps : ℚ) (h : Hypothesis σ V) : LogProb :=
  h.log_prob.map fun q => q / ((h.tokens.length : ℚ) + eps)

/-- A concrete two-token hypothesis used to compare the code's exact
division with the spec's ε-guarded division. -/
def hNine : Hypothesis Unit Unit :=
  { tokens := [4, 5]
    log_probs := [(0 : LogProb), ((-3 : ℚ) : LogProb)]
    state := ()
    decoder_output := []
    encoder_mask := []
    attn_dists := []
    p_gens := []
    coverage := () }

/-- Membership in `sort_hyps` is membership in the input (the sort is a
permutation). -/
lemma sort_hyps_mem {l : List (Hypothesis σ V)} {x : Hypothesis σ V} :
    x ∈ sort_hyps l ↔ x ∈ l := by
  simp [sort_hyps]

/-- The head of the sorted list (when it exists) has maximal
`avg_log_prob` over the input list. -/
lemma sort_hyps_head_ge {l : List (Hypothesis σ V)} {h : Hypothesis σ V}
    (hh : (sort_hyps l).head? = some h) :
    ∀ h' ∈ l, h'.avg_log_prob ≤ h.avg_log_prob := by
  intro h' hmem
  have hsorted : List.Sorted hypGE (sort_hyps l) :=
    List.sorted_insertionSort hypGE l
  have hmem' : h' ∈ sort_hyps l := sort_hyps_mem.mpr hmem
  cases hsl : sort_hyps l with
  | nil => rw [hsl] at hmem'; exact absurd hmem' (List.not_mem_nil h')
  | cons a t =>
    rw [hsl] at hh hmem' hsorted
    have ha : a = h := by simpa using hh
    subst ha
    rcases List.mem_cons.mp hmem' with rfl | ht
    · exact le_refl _
    · exact List.rel_of_sorted_cons hsorted h' ht

/-- Characterization of the selection scan (lines 184-195): the scan
processes some prefix `scanned` of the candidate list (the rest is cut off by
the `break`); the next beam is the starting beam followed by the scanned
non-stop candidates, and the results pool is the starting pool followed by
the scanned stop candidates when `steps ≥ min_dec_steps` (and is unchanged
otherwise); moreover the scan only stops early when one of the pools has
exactly `beam_size` entries. -/
lemma filterScan_spec (cfg : Config) (vocab : Vocab) (steps : Nat) :
    ∀ (cands hyps0 results0 : List (Hypothesis σ V)),
    ∃ scanned rest,
      cands = scanned ++ rest ∧
      (filterScan cfg vocab steps cands hyps0 results0).1
        = hyps0 ++ scanned.filter (fun h => !(h.latest_token == vocab.stop_id)) ∧
      (filterScan cfg vocab steps cands hyps0 results0).2
        = results0 ++ (if cfg.min_dec_steps ≤ steps
            then scanned.filter (fun h => h.latest_token == vocab.stop_id) else []) ∧
      (rest ≠ [] →
        (filterScan cfg vocab steps cands hyps0 results0).1.length = cfg.beam_size ∨
        (filterScan cfg vocab steps cands hyps0 results0).2.length = cfg.beam_size)
  | [], hyps0, results0 => by
    refine ⟨[], [], by simp, by simp [filterScan], by simp [filterScan], by simp⟩
  | h :: rest0, hyps0, results0 => by
    by_cases hstop : h.latest_token = vocab.stop_id
    · by_cases hmin : cfg.min_dec_steps ≤ steps
      · -- completed hypothesis, long enough: appended to results
        have hscan : filterScan cfg vocab steps (h :: rest0) hyps0 results0 =
            if hyps0.length = cfg.beam_size ∨ (results0 ++ [h]).length = cfg.beam_size
            then (hyps0, results0 ++ [h])
            else filterScan cfg vocab steps rest0 hyps0 (results0 ++ [h]) := by
          simp only [filterScan, if_pos hstop, if_pos hmin]
        by_cases hbrk : hyps0.length = cfg.beam_size ∨ (results0 ++ [h]).length = cfg.beam_size
        · rw [hscan, if_pos hbrk]
          exact ⟨[h], rest0, by simp, by simp [hstop], by simp [hstop, hmin],
            fun _ => by simpa using hbrk⟩
        · rw [hscan, if_neg hbrk]
          obtain ⟨scanned, rest, hcands, h1, h2, h3⟩ :=
            filterScan_spec cfg vocab steps rest0 hyps0 (results0 ++ [h])
          refine ⟨h :: scanned, rest, by simp [hcands], ?_, ?_, h3⟩
          · rw [h1, List.filter_cons]
            simp [hstop]
          · rw [h2, if_pos hmin, List.filter_cons]
            simp [hstop, hmin]
      · -- completed hypothesis, too short: discarded
        have hscan : filterScan cfg vocab steps (h :: rest0) hyps0 results0 =
            if hyps0.length = cfg.beam_size ∨ results0.length = cfg.beam_size
            then (hyps0, results0)
            else filterScan cfg vocab steps rest0 hyps0 results0 := by
          simp only [filterScan, if_pos hstop, if_neg hmin]
        by_cases hbrk : hyps0.length = cfg.beam_size ∨ results0.length = cfg.beam_size
        · rw [hscan, if_pos hbrk]
          exact ⟨[h], rest0, by simp, by simp [hstop], by simp [hstop, hmin],
            fun _ => by simpa using hbrk⟩
        · rw [hscan, if_neg hbrk]
          obtain ⟨scanned, rest, hcands, h1, h2, h3⟩ :=
            filterScan_spec cfg vocab steps rest0 hyps0 results0
          refine ⟨h :: scanned, rest, by simp [hcands], ?_, ?_, h3⟩
          · rw [h1, List.filter_cons]
            simp [hstop]
          · rw [h2, if_neg hmin, if_neg hmin]
    · -- not a stop token: appended to the next beam
      have hscan : filterScan cfg vocab steps (h :: rest0) hyps0 results0 =
          if (hyps0 ++ [h]).length = cfg.beam_size ∨ results0.length = cfg.beam_size
          then (hyps0 ++ [h], results0)
          else filterScan cfg vocab steps rest0 (hyps0 ++ [h]) results0 := by
        simp only [filterScan, if_neg hstop]
      by_cases hbrk : (hyps0 ++ [h]).length = cfg.beam_size ∨ results0.length = cfg.beam_size
      · rw [hscan, if_pos hbrk]
        exact ⟨[h], rest0, by simp, by simp [hstop], by simp [hstop],
          fun _ => by simpa using hbrk⟩
      · rw [hscan, if_neg hbrk]
        obtain ⟨scanned, rest, hcands, h1, h2, h3⟩ :=
          filterScan_spec cfg vocab steps rest0 (hyps0 ++ [h]) results0
        refine ⟨h :: scanned, rest, by simp [hcands], ?_, ?_, h3⟩
        · rw [h1, List.filter_cons]
          simp [hstop]
        · rw [h2, List.filter_cons]
          simp [hstop]

/-- Length bounds for the selection scan: starting from pools strictly below
`beam_size`, both output pools stay within `beam_size` (the scan breaks the
moment a pool reaches it). -/
lemma filterScan_le (cfg : Config) (vocab : Vocab) (steps : Nat) :
    ∀ (cands hyps0 results0 : List (Hypothesis σ V)),
    hyps0.length < cfg.beam_size → results0.length < cfg.beam_size →
    (filterScan cfg vocab steps cands hyps0 results0).1.length ≤ cfg.beam_size ∧
    (filterScan cfg vocab steps cands hyps0 results0).2.length ≤ cfg.beam_size
  | [], hyps0, results0, hh, hr => by
    simp only [filterScan]
    exact ⟨Nat.le_of_lt hh, Nat.le_of_lt hr⟩
  | h :: rest0, hyps0, results0, hh, hr => by
    simp only [filterScan]
    set next := if h.latest_token = vocab.stop_id then
        (if cfg.min_dec_steps ≤ steps then (hyps0, results0 ++ [h]) else (hyps0, results0))
      else (hyps0 ++ [h], results0) with hnext
    have hn1 : next.1.length ≤ cfg.beam_size := by
      rw [hnext]
      split
      · split <;> exact Nat.le_of_lt hh
      · simpa using hh
    have hn2 : next.2.length ≤ cfg.beam_size := by
      rw [hnext]
      split
      · split
        · simpa using hr
        · exact Nat.le_of_lt hr
      · exact Nat.le_of_lt hr
    by_cases hbrk : next.1.length = cfg.beam_size ∨ next.2.length = cfg.beam_size
    · rw [if_pos hbrk]
      exact ⟨hn1, hn2⟩
    · rw [if_neg hbrk]
      push_neg at hbrk
      exact filterScan_le cfg vocab steps rest0 next.1 next.2
        (Nat.lt_of_le_of_ne hn1 hbrk.1) (Nat.lt_of_le_of_ne hn2 hbrk.2)

/-- Summing a constant over `List.range`. -/
lemma sum_range_const (n c : Nat) : ((List.range n).map fun _ => c).sum = n * c := by
  have hrep : ((List.range n).map fun _ => c) = List.replicate n c :=
    List.eq_replicate_iff.mpr ⟨by simp, by simp⟩
  rw [hrep, List.sum_replicate, smul_eq_mul]

/-- The number of candidates produced by the extension stage (lines 161-182):
`num_orig_hyps` per-hypothesis blocks of `beam_size * 2` candidates each. -/
lemma extendAll_length [Inhabited σ] [Inhabited V] (cfg : Config) (steps : Nat)
    (hyps : List (Hypothesis σ V)) (res : StepOut σ V) :
    (extendAll cfg steps hyps res).length
      = (if steps = 0 then 1 else hyps.length) * (cfg.beam_size * 2) := by
  simp only [extendAll, List.length_flatMap, List.map_map]
  have : ∀ i : Nat, (List.length ∘ fun i : Nat =>
      (List.range (cfg.beam_size * 2)).map fun j =>
        Hypothesis.extend cfg.avoid_trigrams (hyps.getD i default)
          ((res.topk_ids.getD i []).getD j 0) ((res.topk_log_probs.getD i []).getD j 0)
          (res.new_states.getD i default)
          (if cfg.intradecoder then some (res.decoder_output.getD i default) else none)
          (if cfg.use_temporal_attention then some (res.encoder_e.getD i default) else none)
          (res.attn_dists.getD i default) (res.p_gens.getD i 0)
          (res.new_coverage.getD i default)) i = cfg.beam_size * 2 := by
    intro i
    simp
  rw [List.map_congr_left fun i _ => this i, sum_range_const]

/-- Every candidate produced by the extension stage extends a member of the
current beam by one token (assuming the beam is non-empty on step 0, as it is
whenever the loop body runs). -/
lemma extendAll_mem [Inhabited σ] [Inhabited V] {cfg : Config} {steps : Nat}
    {hyps : List (Hypothesis σ V)} {res : StepOut σ V}
    (hne : steps = 0 → hyps ≠ []) :
    ∀ h' ∈ extendAll cfg steps hyps res, ∃ h ∈ hyps, ∃ t, h'.tokens = h.tokens ++ [t] := by
  intro h' hmem
  simp only [extendAll, List.mem_flatMap, List.mem_range, List.mem_map] at hmem
  obtain ⟨i, hi, j, _, rfl⟩ := hmem
  have hilt : i < hyps.length := by
    by_cases hs : steps = 0
    · have := hne hs
      have hlen : 0 < hyps.length := List.length_pos.mpr this
      rw [hs] at hi
      simp at hi
      omega
    · simp only [if_neg hs] at hi
      exact hi
  refine ⟨hyps.getD i default, ?_, ?_⟩
  · rw [List.getD_eq_getElem hyps default hilt]
    exact List.getElem_mem hilt
  · exact ⟨_, rfl⟩

/-- The next beam produced by one loop iteration has at most `beam_size`
entries (the scan starts from an empty beam and breaks at `beam_size`). -/
lemma runStep_fst_le [Inhabited σ] [Inhabited V] (cfg : Config) (vocab : Vocab)
    (decode : DecodeIn σ V → StepOut σ V) (steps : Nat)
    (hyps results : List (Hypothesis σ V)) (hres : results.length < cfg.beam_size) :
    (runStep cfg vocab decode steps hyps results).1.length ≤ cfg.beam_size := by
  have hbeam : (0 : Nat) < cfg.beam_size := Nat.lt_of_le_of_lt (Nat.zero_le _) hres
  exact (filterScan_le cfg vocab steps _ [] results (by simpa using hbeam) hres).1

/-- The results pool produced by one loop iteration has at most `beam_size`
entries. -/
lemma runStep_snd_le [Inhabited σ] [Inhabited V] (cfg : Config) (vocab : Vocab)
    (decode : DecodeIn σ V → StepOut σ V) (steps : Nat)
    (hyps results : List (Hypothesis σ V)) (hres : results.length < cfg.beam_size) :
    (runStep cfg vocab decode steps hyps results).2.length ≤ cfg.beam_size := by
  have hbeam : (0 : Nat) < cfg.beam_size := Nat.lt_of_le_of_lt (Nat.zero_le _) hres
  exact (filterScan_le cfg vocab steps _ [] results (by simpa using hbeam) hres).2

/-- Every hypothesis in the next beam extends a current-beam hypothesis by
one token; every hypothesis in the new results pool is either an old result
or such an extension. -/
lemma runStep_mem [Inhabited σ] [Inhabited V] (cfg : Config) (vocab : Vocab)
    (decode : DecodeIn σ V → StepOut σ V) (steps : Nat)
    (hyps results : List (Hypothesis σ V)) (hne : steps = 0 → hyps ≠ []) :
    (∀ h' ∈ (runStep cfg vocab decode steps hyps results).1,
        ∃ h ∈ hyps, ∃ t, h'.tokens = h.tokens ++ [t]) ∧
    (∀ h' ∈ (runStep cfg vocab decode steps hyps results).2,
        h' ∈ results ∨ ∃ h ∈ hyps, ∃ t, h'.tokens = h.tokens ++ [t]) := by
  obtain ⟨scanned, rest, hcands, h1, h2, _⟩ :=
    filterScan_spec cfg vocab steps
      (sort_hyps (extendAll cfg steps hyps (decode (decodeInputs cfg vocab hyps)))) [] results
  have hscan_sub : ∀ x ∈ scanned,
      x ∈ extendAll cfg steps hyps (decode (decodeInputs cfg vocab hyps)) := by
    intro x hx
    have : x ∈ sort_hyps (extendAll cfg steps hyps (decode (decodeInputs cfg vocab hyps))) := by
      rw [hcands]
      exact List.mem_append_left _ hx
    exact sort_hyps_mem.mp this
  constructor
  · intro h' hmem
    rw [show (runStep cfg vocab decode steps hyps results).1
        = [] ++ scanned.filter (fun h => !(h.latest_token == vocab.stop_id)) from h1] at hmem
    simp only [List.nil_append] at hmem
    exact extendAll_mem hne h' (hscan_sub h' (List.mem_of_mem_filter hmem))
  · intro h' hmem
    rw [show (runStep cfg vocab decode steps hyps results).2
        = results ++ (if cfg.min_dec_steps ≤ steps
            then scanned.filter (fun h => h.latest_token == vocab.stop_id) else []) from h2] at hmem
    rcases List.mem_append.mp hmem with hold | hnew
    · exact Or.inl hold
    · refine Or.inr ?_
      have : h' ∈ scanned := by
        by_cases hmin : cfg.min_dec_steps ≤ steps
        · rw [if_pos hmin] at hnew
          exact List.mem_of_mem_filter hnew
        · rw [if_neg hmin] at hnew
          exact absurd hnew (List.not_mem_nil h')
      exact extendAll_mem hne h' (hscan_sub h' this)

/-- Every hypothesis in the next beam has a latest token different from the
stop id (stop-token candidates go to results or are discarded, never back
into the beam). -/
lemma runStep_fst_no_stop [Inhabited σ] [Inhabited V] (cfg : Config) (vocab : Vocab)
    (decode : DecodeIn σ V → StepOut σ V) (steps : Nat)
    (hyps results : List (Hypothesis σ V)) :
    ∀ h' ∈ (runStep cfg vocab decode steps hyps results).1,
      h'.latest_token ≠ vocab.stop_id := by
  intro h' hmem
  obtain ⟨scanned, rest, hcands, h1, h2, _⟩ :=
    filterScan_spec cfg vocab steps
      (sort_hyps (extendAll cfg steps hyps (decode (decodeInputs cfg vocab hyps)))) [] results
  rw [show (runStep cfg vocab decode steps hyps results).1
      = [] ++ scanned.filter (fun h => !(h.latest_token == vocab.stop_id)) from h1] at hmem
  simp only [List.nil_append] at hmem
  have := List.of_mem_filter hmem
  simpa using this

/-- The final step counter is bounded by the initial counter plus the fuel:
each iteration increments `steps` by exactly one and consumes one unit of
fuel. -/
lemma beamLoop_steps_le [Inhabited σ] [Inhabited V] (cfg : Config) (vocab : Vocab)
    (decode : DecodeIn σ V → StepOut σ V) :
    ∀ (fuel steps : Nat) (hyps results : List (Hypothesis σ V)),
      (beamLoop cfg vocab decode fuel steps hyps results).1 ≤ steps + fuel
  | 0, steps, hyps, results => by
    simp [beamLoop]
  | fuel + 1, steps, hyps, results => by
    simp only [beamLoop]
    by_cases hres : results.length < cfg.beam_size
    · rw [if_pos hres]
      have := beamLoop_steps_le cfg vocab decode fuel (steps + 1)
        (runStep cfg vocab decode steps hyps results).1
        (runStep cfg vocab decode steps hyps results).2
      omega
    · rw [if_neg hres]
      omega

/-- The loop exits immediately once `results` holds at least `beam_size`
hypotheses. -/
lemma beamLoop_exit [Inhabited σ] [Inhabited V] (cfg : Config) (vocab : Vocab)
    (decode : DecodeIn σ V → StepOut σ V) (fuel steps : Nat)
    (hyps results : List (Hypothesis σ V)) (hres : cfg.beam_size ≤ results.length) :
    beamLoop cfg vocab decode fuel steps hyps results = (steps, hyps, results) := by
  cases fuel with
  | zero => simp [beamLoop]
  | succ fuel =>
    simp only [beamLoop]
    rw [if_neg (Nat.not_lt.mpr hres)]

/-- The loop preserves the token-length invariant, and its final counter is
at least the initial one. -/
lemma beamLoop_inv [Inhabited σ] [Inhabited V] (cfg : Config) (vocab : Vocab)
    (decode : DecodeIn σ V → StepOut σ V) :
    ∀ (fuel s : Nat) (hyps results : List (Hypothesis σ V)),
      LenInv cfg s hyps results →
      (∀ h ∈ (beamLoop cfg vocab decode fuel s hyps results).2.1,
          h.tokens.length = (beamLoop cfg vocab decode fuel s hyps results).1 + 1) ∧
      (∀ h ∈ (beamLoop cfg vocab decode fuel s hyps results).2.2,
          1 ≤ h.tokens.length ∧
          h.tokens.length ≤ (beamLoop cfg vocab decode fuel s hyps results).1 + 1)
  | 0, s, hyps, results, hinv => by
    simpa [beamLoop] using ⟨hinv.1, hinv.2.1⟩
  | fuel + 1, s, hyps, results, hinv => by
    simp only [beamLoop]
    by_cases hres : results.length < cfg.beam_size
    · rw [if_pos hres]
      have hne : s = 0 → hyps ≠ [] := by
        intro hs
        have hlen := hinv.2.2 hs
        have hbeam : (0 : Nat) < cfg.beam_size := Nat.lt_of_le_of_lt (Nat.zero_le _) hres
        intro hnil
        rw [hnil] at hlen
        simp at hlen
        omega
      have hmem := runStep_mem cfg vocab decode s hyps results hne
      refine beamLoop_inv cfg vocab decode fuel (s + 1)
        (runStep cfg vocab decode s hyps results).1
        (runStep cfg vocab decode s hyps results).2 ⟨?_, ?_, ?_⟩
      · intro h hh
        obtain ⟨h0, hh0, t, ht⟩ := hmem.1 h hh
        rw [ht]
        simp [hinv.1 h0 hh0]
      · intro h hh
        rcases hmem.2 h hh with hold | ⟨h0, hh0, t, ht⟩
        · have := hinv.2.1 h hold
          omega
        · rw [ht]
          simp [hinv.1 h0 hh0]
      · omega
    · rw [if_neg hres]
      exact ⟨hinv.1, hinv.2.1⟩

/-- The initial beam satisfies the token-length invariant at counter `0`. -/
lemma initHyps_inv (cfg : Config) (vocab : Vocab) (dec_in_state : σ)
    (zero_dec zero_enc : V) :
    LenInv cfg 0 (initHyps cfg vocab dec_in_state zero_dec zero_enc)
      ([] : List (Hypothesis σ V)) := by
  refine ⟨?_, by simp, by simp [initHyps]⟩
  intro h hh
  simp only [initHyps, List.mem_map] at hh
  obtain ⟨i, _, rfl⟩ := hh
  simp

/-- Every hypothesis in the final pool (results, or the beam fallback) has
between `1` and `max_dec_steps + 1` tokens. -/
lemma finalPool_lens [Inhabited σ] [Inhabited V] (cfg : Config) (vocab : Vocab)
    (decode : DecodeIn σ V → StepOut σ V) (dec_in_state : σ) (zero_dec zero_enc : V) :
    ∀ h ∈ finalPool cfg vocab decode dec_in_state zero_dec zero_enc,
      1 ≤ h.tokens.length ∧ h.tokens.length ≤ cfg.max_dec_steps + 1 := by
  intro h hh
  have hinv := beamLoop_inv cfg vocab decode cfg.max_dec_steps 0
    (initHyps cfg vocab dec_in_state zero_dec zero_enc) []
    (initHyps_inv cfg vocab dec_in_state zero_dec zero_enc)
  have hsteps := beamLoop_steps_le cfg vocab decode cfg.max_dec_steps 0
    (initHyps cfg vocab dec_in_state zero_dec zero_enc) []
  simp only [finalPool] at hh
  by_cases hzero : (beamLoop cfg vocab decode cfg.max_dec_steps 0
      (initHyps cfg vocab dec_in_state zero_dec zero_enc) []).2.2.length = 0
  · rw [if_pos hzero] at hh
    have := hinv.1 h hh
    omega
  · rw [if_neg hzero] at hh
    have := hinv.2 h hh
    omega

/-- Concrete run: the `cfgMinMax`/`decodeTok` search expands the single step
`0`, keeps the better candidate (log probability `-1`), never completes a
hypothesis (`min_dec_steps = 3 > max_dec_steps = 1`), and falls back to the
unfinished beam. -/
lemma finalPool_eval : finalPool cfgMinMax vocabT decodeTok () () () = [hBest] := by
  norm_num [finalPool, beamLoop, runStep, extendAll, filterScan,
    decodeInputs, initHyps, sort_hyps, Hypothesis.extend, Hypothesis.latest_token,
    Hypothesis.avg_log_prob, Hypothesis.log_prob, has_trigram, find_ngrams3,
    cfgMinMax, vocabT, decodeTok, hypGE, List.orderedInsert, hBest]

/-- Concrete run: the returned hypothesis of the `cfgMinMax`/`decodeTok`
search. -/
lemma run_eval : run_beam_search cfgMinMax vocabT decodeTok () () () = some hBest := by
  rw [run_beam_search, finalPool_eval]
  rfl

/-- Concrete step: the next beam produced by the first iteration of the
`cfgMinMax`/`decodeTok` run. -/
lemma runStep_eval :
    (runStep cfgMinMax vocabT decodeTok 0 (initHyps cfgMinMax vocabT () () ()) []).1
      = [hBest] := by
  norm_num [runStep, extendAll, filterScan, decodeInputs, initHyps, sort_hyps,
    Hypothesis.extend, Hypothesis.latest_token, Hypothesis.avg_log_prob,
    Hypothesis.log_prob, has_trigram, find_ngrams3, cfgMinMax, vocabT, decodeTok,
    hypGE, List.orderedInsert, hBest]

/-- The code's `zip`-based trigram extraction agrees with the indexed window
extraction. -/
lemma find_ngrams3_eq_windows3 : ∀ l : List Nat, find_ngrams3 l = windows3 l
  | [] => by simp [find_ngrams3, windows3]
  | [a] => by simp [find_ngrams3, windows3]
  | [a, b] => by simp [find_ngrams3, windows3]
  | a :: b :: c :: rest => by
    rw [show find_ngrams3 (a :: b :: c :: rest)
        = (a, b, c) :: find_ngrams3 (b :: c :: rest) from rfl,
      find_ngrams3_eq_windows3 (b :: c :: rest)]
    simp only [windows3, List.length_cons]
    rw [show (rest.length + 1 + 1 + 1 - 2) = (rest.length + 1 + 1 - 2) + 1 by omega,
      List.range_succ_eq_map]
    simp [List.map_map, Function.comp]

/-- Two lawful `BEq` instances give the same element counts. -/
lemma count_inst_congr (inst1 inst2 : BEq (Nat × Nat × Nat))
    (h1 : @LawfulBEq _ inst1) (h2 : @LawfulBEq _ inst2)
    (g : Nat × Nat × Nat) (l : List (Nat × Nat × Nat)) :
    @List.count _ inst1 g l = @List.count _ inst2 g l := by
  induction l with
  | nil => rfl
  | cons a t ih =>
    rw [@List.count_cons _ inst1, @List.count_cons _ inst2, ih]
    have heq : (@BEq.beq _ inst1 a g) = (@BEq.beq _ inst2 a g) := by
      by_cases h : a = g
      · subst h
        rw [@LawfulBEq.rfl _ inst1 h1, @LawfulBEq.rfl _ inst2 h2]
      · rw [(@beq_eq_false_iff_ne _ inst1 h1 a g).mpr h,
          (@beq_eq_false_iff_ne _ inst2 h2 a g).mpr h]
    rw [heq]

/-- The decidable-equality `BEq` instance on triples is lawful. -/
lemma lawfulBEq_decEq_triple : @LawfulBEq (Nat × Nat × Nat) instBEqOfDecidableEq :=
  @LawfulBEq.mk _ instBEqOfDecidableEq (fun h => of_decide_eq_true h)
    (decide_eq_true rfl)

/-- `_has_trigram` returns `true` exactly when some contiguous 3-token window
occurs more than once in the sequence. -/
lemma has_trigram_iff (l : List Nat) :
    has_trigram l = true ↔ ¬ (windows3 l).Nodup := by
  rw [← find_ngrams3_eq_windows3]
  unfold has_trigram
  rw [Bool.not_eq_eq_eq_not]
  simp only [Bool.not_true, List.all_eq_false]
  have hcc := count_inst_congr instBEqProd instBEqOfDecidableEq
    (inferInstance : @LawfulBEq (Nat × Nat × Nat) instBEqProd)
    lawfulBEq_decEq_triple
  constructor
  · rintro ⟨g, hg, hcount⟩ hnodup
    have h1 : @List.count _ instBEqOfDecidableEq g (find_ngrams3 l) = 1 :=
      List.count_eq_one_of_mem hnodup hg
    rw [hcc g (find_ngrams3 l), h1] at hcount
    simp at hcount
  · intro hnodup
    rw [List.nodup_iff_count_le_one] at hnodup
    push_neg at hnodup
    obtain ⟨g, hg⟩ := hnodup
    refine ⟨g, ?_, ?_⟩
    · refine (@List.count_pos_iff _ instBEqOfDecidableEq lawfulBEq_decEq_triple g (find_ngrams3 l)).mp (by omega)
    · rw [hcc g (find_ngrams3 l)]
      simp
      omega

/-- Claim C3 (confirmed): `extend` always creates the new hypothesis with the
token appended, and the appended log probability is `-inf` exactly when the
trigram-avoidance flag is set and the extended token sequence
`tokens ++ [token]` contains some contiguous 3-token window occurring more
than once; otherwise it is the supplied `log_prob` unchanged. -/
theorem claim3_extend_trigram_guard (flag : Bool) (h : Hypothesis σ V)
    (token : Nat) (lp : LogProb) (st : σ) (deco encm : Option V) (ad : V)
    (pg : ℚ) (cov : V) :
    (h.extend flag token lp st deco encm ad pg cov).tokens = h.tokens ++ [token] ∧
    (h.extend flag token lp st deco encm ad pg cov).log_probs
      = h.log_probs ++
        [if flag = true ∧ ¬ (windows3 (h.tokens ++ [token])).Nodup then ⊥ else lp] := by
  constructor
  · rfl
  · show h.log_probs ++ [if (flag && has_trigram (h.tokens ++ [token])) = true then ⊥ else lp] = _
    refine congrArg (fun x => h.log_probs ++ [x]) ?_
    refine if_congr ?_ rfl rfl
    rw [Bool.and_eq_true, has_trigram_iff]

/-- Claim C4 (confirmed): the selection scan routes every candidate it
processes (some prefix `scanned` of the sorted candidate list; the rest is
cut off by the C5 break): a stop-token candidate is appended to results
exactly when `steps ≥ min_dec_steps` and otherwise appears in neither output
pool; every non-stop candidate is appended to the next beam. -/
theorem claim4_scan_routing (cfg : Config) (vocab : Vocab) (steps : Nat)
    (cands results0 : List (Hypothesis σ V)) :
    ∃ scanned rest,
      cands = scanned ++ rest ∧
      (filterScan cfg vocab steps cands [] results0).1
        = scanned.filter (fun h => !(h.latest_token == vocab.stop_id)) ∧
      (filterScan cfg vocab steps cands [] results0).2
        = results0 ++ (if cfg.min_dec_steps ≤ steps
            then scanned.filter (fun h => h.latest_token == vocab.stop_id) else []) := by
  obtain ⟨scanned, rest, h0, h1, h2, _⟩ := filterScan_spec cfg vocab steps cands [] results0
  exact ⟨scanned, rest, h0, by simpa using h1, h2⟩

/-- Claim C5 (confirmed): when the loop guard holds (`results0` below
`beam_size`), the scan leaves the next beam and the results pool within
`beam_size`, adds at most `beam_size` hypotheses to results, and it discards
the remaining candidates only when one of the two pools has reached exactly
`beam_size` entries. -/
theorem claim5_scan_cutoff (cfg : Config) (vocab : Vocab) (steps : Nat)
    (cands results0 : List (Hypothesis σ V))
    (hres : results0.length < cfg.beam_size) :
    (filterScan cfg vocab steps cands [] results0).1.length ≤ cfg.beam_size ∧
    (filterScan cfg vocab steps cands [] results0).2.length ≤ cfg.beam_size ∧
    (filterScan cfg vocab steps cands [] results0).2.length - results0.length
      ≤ cfg.beam_size ∧
    ∃ scanned rest, cands = scanned ++ rest ∧
      (rest ≠ [] →
        (filterScan cfg vocab steps cands [] results0).1.length = cfg.beam_size ∨
        (filterScan cfg vocab steps cands [] results0).2.length = cfg.beam_size) := by
  have hbeam : (0 : Nat) < cfg.beam_size := Nat.lt_of_le_of_lt (Nat.zero_le _) hres
  have hle := filterScan_le cfg vocab steps cands [] results0 (by simpa using hbeam) hres
  obtain ⟨scanned, rest, h0, _, _, h3⟩ := filterScan_spec cfg vocab steps cands [] results0
  exact ⟨hle.1, hle.2, by omega, scanned, rest, h0, h3⟩

/-- Witness for C5 at a concrete input. -/
theorem claim5_witness :
    (filterScan cfgMinMax vocabT 0 [] []
        ([] : List (Hypothesis Unit Unit))).1.length ≤ cfgMinMax.beam_size :=
  (claim5_scan_cutoff cfgMinMax vocabT 0 [] [] (by norm_num [cfgMinMax])).1

/-- Claim C10 (confirmed): every hypothesis in the next beam produced by one
loop iteration has a latest token different from the stop id — stop-token
candidates go to results or are discarded, never back into the beam. -/
theorem claim10_no_stop_in_beam [Inhabited σ] [Inhabited V] (cfg : Config)
    (vocab : Vocab) (decode : DecodeIn σ V → StepOut σ V) (steps : Nat)
    (hyps results : List (Hypothesis σ V)) :
    ∀ h' ∈ (runStep cfg vocab decode steps hyps results).1,
      h'.latest_token ≠ vocab.stop_id :=
  runStep_fst_no_stop cfg vocab decode steps hyps results

/-- Witness for C10 at a concrete input. -/
theorem claim10_witness : hBest.latest_token ≠ vocabT.stop_id :=
  claim10_no_stop_in_beam cfgMinMax vocabT decodeTok 0
    (initHyps cfgMinMax vocabT () () ()) [] hBest
    (by rw [runStep_eval]; exact List.mem_singleton.mpr rfl)

/-- Claim C1 counterexample: a terminating run that returns no hypothesis.
With `beam_size = 1`, `min_dec_steps = 1`, `max_dec_steps = 1` and a model
whose two candidates are both the stop token, every step-0 candidate is a
premature stop and is discarded, so the loop ends with an empty results pool
AND an empty beam; the fallback `results = hyps` is also empty and Python's
`hyps_sorted[0]` raises `IndexError` instead of returning a hypothesis (the
embedding returns `none`). -/
theorem claim1_counterexample :
    run_beam_search cfgStop vocabT decodeStop () () () = none := by
  norm_num [run_beam_search, finalPool, beamLoop, runStep, extendAll, filterScan,
    decodeInputs, initHyps, sort_hyps, Hypothesis.extend, Hypothesis.latest_token,
    Hypothesis.avg_log_prob, Hypothesis.log_prob, has_trigram, find_ngrams3,
    cfgStop, vocabT, decodeStop, hypGE, List.orderedInsert]

/-- Claim C1 (amended): when the loop ends with zero completed hypotheses the
final pool is the current (possibly unfinished) beam, and whenever the search
returns a hypothesis at all, its average log probability is maximal over the
final pool; but if that fallback beam is itself empty no hypothesis is
returned. -/
theorem claim1_best_of_pool [Inhabited σ] [Inhabited V] (cfg : Config)
    (vocab : Vocab) (decode : DecodeIn σ V → StepOut σ V) (dec_in_state : σ)
    (zero_dec zero_enc : V) :
    ((beamLoop cfg vocab decode cfg.max_dec_steps 0
        (initHyps cfg vocab dec_in_state zero_dec zero_enc) []).2.2.length = 0 →
      finalPool cfg vocab decode dec_in_state zero_dec zero_enc
        = (beamLoop cfg vocab decode cfg.max_dec_steps 0
            (initHyps cfg vocab dec_in_state zero_dec zero_enc) []).2.1) ∧
    ∀ best, run_beam_search cfg vocab decode dec_in_state zero_dec zero_enc = some best →
      ∀ h' ∈ finalPool cfg vocab decode dec_in_state zero_dec zero_enc,
        h'.avg_log_prob ≤ best.avg_log_prob := by
  constructor
  · intro hz
    simp only [finalPool, if_pos hz]
  · intro best hbest h' hmem
    rw [run_beam_search] at hbest
    exact sort_hyps_head_ge hbest h' hmem

/-- Witness for the amended C1 at a concrete input. -/
theorem claim1_witness : hBest.avg_log_prob ≤ hBest.avg_log_prob :=
  (claim1_best_of_pool cfgMinMax vocabT decodeTok () () ()).2 hBest run_eval hBest
    (by rw [finalPool_eval]; exact List.mem_singleton.mpr rfl)

/-- Claim C2 (confirmed): the final value of the step counter (which counts
executed loop iterations, starting at `0` and increasing by exactly one per
iteration) is at most `max_dec_steps`; the loop exits immediately once the
results pool holds `beam_size` hypotheses; and any returned hypothesis has
between `1` and `max_dec_steps + 1` tokens (start token included). -/
theorem claim2_termination_and_length [Inhabited σ] [Inhabited V] (cfg : Config)
    (vocab : Vocab) (decode : DecodeIn σ V → StepOut σ V) (dec_in_state : σ)
    (zero_dec zero_enc : V) (_hmax : 0 < cfg.max_dec_steps) :
    (beamLoop cfg vocab decode cfg.max_dec_steps 0
        (initHyps cfg vocab dec_in_state zero_dec zero_enc) []).1 ≤ cfg.max_dec_steps ∧
    (∀ (fuel steps : Nat) (hyps results : List (Hypothesis σ V)),
        cfg.beam_size ≤ results.length →
        beamLoop cfg vocab decode fuel steps hyps results = (steps, hyps, results)) ∧
    (∀ best, run_beam_search cfg vocab decode dec_in_state zero_dec zero_enc = some best →
        1 ≤ best.tokens.length ∧ best.tokens.length ≤ cfg.max_dec_steps + 1) := by
  refine ⟨?_, ?_, ?_⟩
  · simpa using beamLoop_steps_le cfg vocab decode cfg.max_dec_steps 0
      (initHyps cfg vocab dec_in_state zero_dec zero_enc) []
  · exact fun fuel steps hyps results h =>
      beamLoop_exit cfg vocab decode fuel steps hyps results h
  · intro best hbest
    rw [run_beam_search] at hbest
    have hmem : best ∈ finalPool cfg vocab decode dec_in_state zero_dec zero_enc := by
      cases hsl : sort_hyps (finalPool cfg vocab decode dec_in_state zero_dec zero_enc) with
      | nil => rw [hsl] at hbest; simp at hbest
      | cons a t =>
        rw [hsl] at hbest
        simp only [List.head?_cons, Option.some.injEq] at hbest
        have hmem' : a ∈ sort_hyps (finalPool cfg vocab decode dec_in_state zero_dec zero_enc) := by
          rw [hsl]; exact List.mem_cons_self a t
        rw [← hbest]
        exact sort_hyps_mem.mp hmem'
    exact finalPool_lens cfg vocab decode dec_in_state zero_dec zero_enc best hmem

/-- Witness for C2 at a concrete input. -/
theorem claim2_witness :
    1 ≤ hBest.tokens.length ∧ hBest.tokens.length ≤ cfgMinMax.max_dec_steps + 1 :=
  (claim2_termination_and_length cfgMinMax vocabT decodeTok () () ()
    (by norm_num [cfgMinMax])).2.2 hBest run_eval

/-- Claim C6 (confirmed): on step 0 exactly one hypothesis (the shared
initial one) is expanded, giving `2 * beam_size` candidates; on any later
step every beam hypothesis is expanded, giving
`len(hyps) * (2 * beam_size)` candidates. -/
theorem claim6_expansion_counts [Inhabited σ] [Inhabited V] (cfg : Config)
    (steps : Nat) (hyps : List (Hypothesis σ V)) (res : StepOut σ V)
    (_hne : 1 ≤ hyps.length) :
    (extendAll cfg 0 hyps res).length = 2 * cfg.beam_size ∧
    (steps ≠ 0 →
      (extendAll cfg steps hyps res).length = hyps.length * (2 * cfg.beam_size)) := by
  constructor
  · rw [extendAll_length]
    simp [Nat.mul_comm]
  · intro hs
    rw [extendAll_length, if_neg hs, Nat.mul_comm cfg.beam_size 2]

/-- Witness for C6 at a concrete input. -/
theorem claim6_witness :
    (extendAll cfgMinMax 0 (initHyps cfgMinMax vocabT () () ())
        (decodeTok (decodeInputs cfgMinMax vocabT
          (initHyps cfgMinMax vocabT () () ())))).length = 2 * cfgMinMax.beam_size :=
  (claim6_expansion_counts cfgMinMax 1 (initHyps cfgMinMax vocabT () () ())
    (decodeTok (decodeInputs cfgMinMax vocabT (initHyps cfgMinMax vocabT () () ())))
    (by norm_num [initHyps, cfgMinMax])).1

/-- Claim C7 counterexample: at step 0 the model call receives one entry per
hypothesis of the *initial beam*, which holds `beam_size` copies — with
`beam_size = 2` the batched `latest_tokens` list has 2 entries, not 1 as the
claim states for step 0. -/
theorem claim7_counterexample :
    (decodeInputs cfgTwo vocabT
        (initHyps cfgTwo vocabT () () ())).latest_tokens.length = 2 ∧ (2 : Nat) ≠ 1 := by
  constructor
  · norm_num [decodeInputs, initHyps, cfgTwo, vocabT, Hypothesis.latest_token]
  · decide

/-- Claim C7 (amended): the per-hypothesis entries passed to the model call
(latest tokens, decoder states, coverage vectors) always number exactly the
current beam size; that beam size is `beam_size` on step 0 (the full initial
beam) and at most `beam_size` on every later step. -/
theorem claim7_batching_amended [Inhabited σ] [Inhabited V] (cfg : Config)
    (vocab : Vocab) (decode : DecodeIn σ V → StepOut σ V) :
    (∀ hyps : List (Hypothesis σ V),
        (decodeInputs cfg vocab hyps).latest_tokens.length = hyps.length ∧
        (decodeInputs cfg vocab hyps).dec_init_states.length = hyps.length ∧
        (decodeInputs cfg vocab hyps).prev_coverage.length = hyps.length) ∧
    (∀ (dec_in_state : σ) (zero_dec zero_enc : V),
        (initHyps cfg vocab dec_in_state zero_dec zero_enc).length = cfg.beam_size) ∧
    (∀ (steps : Nat) (hyps results : List (Hypothesis σ V)),
        results.length < cfg.beam_size →
        (runStep cfg vocab decode steps hyps results).1.length ≤ cfg.beam_size) := by
  refine ⟨?_, ?_, ?_⟩
  · intro hyps
    refine ⟨?_, ?_, ?_⟩ <;> simp [decodeInputs]
  · intro dec_in_state zero_dec zero_enc
    simp [initHyps]
  · exact fun steps hyps results h =>
      runStep_fst_le cfg vocab decode steps hyps results h

/-- Witness for the amended C7 at a concrete input. -/
theorem claim7_witness :
    (runStep cfgMinMax vocabT decodeTok 0
        (initHyps cfgMinMax vocabT () () ()) []).1.length ≤ cfgMinMax.beam_size :=
  (claim7_batching_amended cfgMinMax vocabT decodeTok).2.2 0
    (initHyps cfgMinMax vocabT () () ()) [] (by norm_num [cfgMinMax])

/-- Claim C8 counterexample: `run_beam_search` performs no configuration
validation.  `cfgMinMax` has `min_dec_steps = 3 > max_dec_steps = 1`, yet the
search runs normally and returns a hypothesis instead of failing before the
loop with no partial result. -/
theorem claim8_counterexample :
    (run_beam_search cfgMinMax vocabT decodeTok () () ()).isSome = true := by
  rw [run_eval]
  rfl

/-- Claim C8 (amended): there is no validation of either condition.  With
`beam_size = 0` the loop body never runs (the guard `len(results) <
beam_size` is immediately false), and the failure surfaces only *after* the
loop, as the final selection over an empty pool (Python `IndexError`, `none`
here); with `min_dec_steps > max_dec_steps` the search silently returns a
hypothesis (see the counterexample). -/
theorem claim8_amended [Inhabited σ] [Inhabited V] (cfg : Config) (vocab : Vocab)
    (decode : DecodeIn σ V → StepOut σ V) (dec_in_state : σ)
    (zero_dec zero_enc : V) (hzero : cfg.beam_size = 0) :
    run_beam_search cfg vocab decode dec_in_state zero_dec zero_enc = none := by
  have hinit : initHyps cfg vocab dec_in_state zero_dec zero_enc
      = ([] : List (Hypothesis σ V)) := by
    simp [initHyps, hzero]
  have hloop := beamLoop_exit cfg vocab decode cfg.max_dec_steps 0
    (initHyps cfg vocab dec_in_state zero_dec zero_enc) [] (by simp [hzero])
  rw [run_beam_search, finalPool, hloop]
  simp [hinit, sort_hyps]

/-- Witness for the amended C8 at a concrete input. -/
theorem claim8_witness : run_beam_search cfgZero vocabT decodeTok () () () = none :=
  claim8_amended cfgZero vocabT decodeTok () () () rfl

/-- Claim C9 counterexample: `avg_log_prob` performs the exact division by
the token count with no epsilon: on the two-token hypothesis `hNine` it
returns exactly `-3/2`, while the spec's ε-guarded version (at the
representative small epsilon `10⁻⁶`) returns a different value.  (The same
holds for every positive epsilon; see the amended theorem.) -/
theorem claim9_counterexample :
    Hypothesis.avg_log_prob hNine = (((-3 : ℚ) / 2 : ℚ) : LogProb) ∧
    avg_log_prob_eps (1 / 1000000) hNine ≠ Hypothesis.avg_log_prob hNine := by
  have hsum : Hypothesis.log_prob hNine = ((-3 : ℚ) : LogProb) := by
    simp [Hypothesis.log_prob, hNine, ← WithBot.coe_add]
  constructor
  · rw [Hypothesis.avg_log_prob, hsum, WithBot.map_coe]
    norm_num [hNine]
  · rw [Hypothesis.avg_log_prob, avg_log_prob_eps, hsum, WithBot.map_coe, WithBot.map_coe]
    rw [Ne, WithBot.coe_inj]
    norm_num [hNine]

/-- Claim C9 (amended): the code adds no epsilon anywhere — the division in
`avg_log_prob` is by the exact token count, so it differs from every
ε-guarded division (ε > 0) already on the concrete hypothesis `hNine`; the
division never divides by zero within a search run only because every
hypothesis in the final pool has at least one token. -/
theorem claim9_no_eps_guard :
    (∀ e : ℚ, 0 < e →
        avg_log_prob_eps e hNine ≠ Hypothesis.avg_log_prob hNine) ∧
    (∀ (α β : Type) [Inhabited α] [Inhabited β] (cfg : Config) (vocab : Vocab)
        (decode : DecodeIn α β → StepOut α β) (dec_in_state : α)
        (zero_dec zero_enc : β),
        ∀ h ∈ finalPool cfg vocab decode dec_in_state zero_dec zero_enc,
          1 ≤ h.tokens.length) := by
  constructor
  · intro e he hEq
    have hsum : Hypothesis.log_prob hNine = ((-3 : ℚ) : LogProb) := by
      simp [Hypothesis.log_prob, hNine, ← WithBot.coe_add]
    rw [Hypothesis.avg_log_prob, avg_log_prob_eps, hsum, WithBot.map_coe,
      WithBot.map_coe, WithBot.coe_inj] at hEq
    have hlen : ((hNine.tokens.length : ℚ)) = 2 := by norm_num [hNine]
    rw [hlen] at hEq
    have h2 : (2 : ℚ) + e ≠ 0 := by linarith
    have h2' : (2 : ℚ) ≠ 0 := by norm_num
    rw [div_eq_div_iff h2 h2'] at hEq
    have : e = 0 := by linarith
    exact absurd this (ne_of_gt he)
  · intro α β _ _ cfg vocab decode dec_in_state zero_dec zero_enc h hmem
    exact (finalPool_lens cfg vocab decode dec_in_state zero_dec zero_enc h hmem).1

/-- Witness for the amended C9 at concrete inputs. -/
theorem claim9_witness :
    avg_log_prob_eps 1 hNine ≠ Hypothesis.avg_log_prob hNine ∧
    1 ≤ hBest.tokens.length :=
  ⟨claim9_no_eps_guard.1 1 (by norm_num),
   claim9_no_eps_guard.2 Unit Unit cfgMinMax vocabT decodeTok () () () hBest
     (by rw [finalPool_eval]; exact List.mem_singleton.mpr rfl)⟩
